import Mathlib

/-!
Verification development for the schema-driven XML sample generator
(`xsd_to_xml.py`).  The Python source is shallowly embedded: the parsed
XML/XSD trees become the inductive `XElem`, lxml operations (`get`, `find`,
`findall`, element truthiness, Python `or` on elements) become total Lean
functions, Python exceptions become the `PyError` sum threaded through
`Except`, and the random module becomes explicit oracle streams carried in
the generation state `GenSt` (one stream for occurrence decisions, one for
value synthesis; each `random.*` call consumes one entry).  The XSD
namespace prefix `{http://www.w3.org/2001/XMLSchema}` on tags is elided:
schema nodes are stored with their local names (`"sequence"`, `"element"`,
...), which is faithful because every tag the source matches on carries
exactly that prefix.
-/

/-- An XML element as exposed by lxml: a tag, an ordered attribute list,
ordered children and optional text.  Used both for schema-definition nodes
and for generated output nodes. -/
inductive XElem where
  | node (tag : String) (attrs : List (String × String)) (children : List XElem) (text : Option String)

def XElem.tag : XElem → String
  | .node t _ _ _ => t

def XElem.attrs : XElem → List (String × String)
  | .node _ a _ _ => a

def XElem.children : XElem → List XElem
  | .node _ _ c _ => c

def XElem.text : XElem → Option String
  | .node _ _ _ x => x

/-- `element.get(key)`: first attribute with the given name. -/
def XElem.getAttr (e : XElem) (k : String) : Option String :=
  (e.attrs.find? (fun p => p.1 == k)).map (·.2)

/-- `element.find(tag)`: first direct child with the given tag. -/
def XElem.findChild (e : XElem) (t : String) : Option XElem :=
  e.children.find? (fun c => c.tag == t)

/-- `element.findall(tag)`: all direct children with the given tag. -/
def XElem.findAll (e : XElem) (t : String) : List XElem :=
  e.children.filter (fun c => c.tag == t)

/-- `element.set(key, value)`: overwrite an existing attribute in place or
append a new one. -/
def setAttrList : List (String × String) → String → String → List (String × String)
  | [], k, v => [(k, v)]
  | (k', v') :: rest, k, v =>
    if k' == k then (k, v) :: rest else (k', v') :: setAttrList rest k v

def XElem.setAttr (e : XElem) (k v : String) : XElem :=
  .node e.tag (setAttrList e.attrs k v) e.children e.text

def XElem.setText (e : XElem) (x : Option String) : XElem :=
  .node e.tag e.attrs e.children x

/-- `etree.SubElement(parent, ...)`: append a child at the end. -/
def XElem.appendChild (e c : XElem) : XElem :=
  .node e.tag e.attrs (e.children ++ [c]) e.text

def XElem.withChildren (e : XElem) (cs : List XElem) : XElem :=
  .node e.tag e.attrs cs e.text

/-- lxml truthiness of an element: an element with no children is falsy. -/
def pyTruthyElem (e : XElem) : Bool :=
  !e.children.isEmpty

/-- Python truthiness of `find(...)`'s result: `None` is falsy, and so is an
element without children. -/
def pyTruthy : Option XElem → Bool
  | none => false
  | some e => pyTruthyElem e

/-- Python `a or b` on two `find(...)` results. -/
def pyOr (a b : Option XElem) : Option XElem :=
  if pyTruthy a then a else b

/-!
Python's string operations are modelled over the character list `String.data`
(the core position-based `String` loops do not reduce definitionally, so each
operation the source uses gets a small list-based equivalent).
-/

/-- `s.lower()`. -/
def pyLower (s : String) : String := String.mk (s.data.map Char.toLower)

/-- `s.startswith(pre)`. -/
def pyStartsWith (s pre : String) : Bool := pre.data.isPrefixOf s.data

/-- `c in s` for a single character. -/
def strContainsChar (s : String) (c : Char) : Bool := s.data.contains c

/-- `s == ""` (falsiness of a string). -/
def strIsEmpty (s : String) : Bool := s.data.isEmpty

/-- `s.split(c)`: split at every occurrence, keeping empty pieces. -/
def splitCharsOn (c : Char) : List Char → List (List Char)
  | [] => [[]]
  | a :: rest =>
    if a == c then [] :: splitCharsOn c rest
    else
      match splitCharsOn c rest with
      | [] => [[a]]
      | g :: gs => (a :: g) :: gs

def pySplitColon (s : String) : List String := (splitCharsOn ':' s.data).map String.mk

def parseDigitsGo : List Char → Nat → Option Nat
  | [], acc => some acc
  | c :: rest, acc => if c.isDigit then parseDigitsGo rest (acc * 10 + (c.toNat - 48)) else none

/-- Python `int(s)` (decimal digits with an optional leading minus). -/
def pyStrToInt? (s : String) : Option Int :=
  match s.data with
  | [] => none
  | c :: rest =>
    if c == '-' then
      match rest with
      | [] => none
      | _ => (parseDigitsGo rest 0).map (fun n => -(n : Int))
    else (parseDigitsGo (c :: rest) 0).map (fun n => (n : Int))

/-- Python truthiness of an optional string (`None` and `""` are falsy). -/
def strTruthy : Option String → Bool
  | none => false
  | some s => !strIsEmpty s

/-- `s.split(":")[1]` (used only after a `startswith("xs:")` guard). -/
def splitSecond (s : String) : String :=
  (pySplitColon s).getD 1 ""

/-- `s.split(":")[-1]`. -/
def splitLast (s : String) : String :=
  ((pySplitColon s).getLast?).getD s

/-- Python `f"{x}"` of an optional string: `None` prints as `"None"`. -/
def pyShow : Option String → String
  | none => "None"
  | some s => s

/-- The Python exceptions the generator can raise. -/
inductive PyError where
  | valueError (msg : String)
  | typeError (msg : String)
  | attributeError (msg : String)
  | recursionError
deriving DecidableEq, Repr

/-- `random.randint(a, b)`: inclusive bounds, raising `ValueError` when the
range is empty; the draw `d` is the oracle for the uniform choice. -/
def pyRandint (a b : Int) (d : Nat) : Except PyError Int :=
  if a ≤ b then .ok (a + Int.ofNat (d % (b - a + 1).toNat))
  else .error (.valueError "empty range for randrange")

/-- `random.random() < 0.5`: the oracle draw decides the coin. -/
def pyCoin (d : Nat) : Bool :=
  d % 2 == 0

/-- `random.choice` on a non-empty list of optional strings (enumeration
`value` attributes may be absent, in which case lxml's `get` gave `None`). -/
def pyChoiceOpt (l : List (Option String)) (d : Nat) : Option String :=
  (l.getD (d % l.length) none)

/-- `random.randint` on constant non-negative literal bounds (total form used
inside the sample-value table, where the bounds are always well ordered). -/
def rn (a b d : Nat) : Nat :=
  a + d % (b - a + 1)

/-- `random.randint` on constant integer literal bounds. -/
def ri (a b : Int) (d : Nat) : Int :=
  a + Int.ofNat (d % (b - a + 1).toNat)

/-- Two-digit zero padding, as produced by `strftime` field formats. -/
def pad2 (n : Nat) : String :=
  if n < 10 then "0" ++ toString n else toString n

/-- Four-digit zero padding (also models the fixed-precision fraction of the
`:.4f`/`:.2f` float formats, whose fractional digits come from the oracle). -/
def pad4 (n : Nat) : String :=
  if n < 10 then "000" ++ toString n
  else if n < 100 then "00" ++ toString n
  else if n < 1000 then "0" ++ toString n
  else toString n

/-- The `type_map` dictionary of `generate_sample_value`, in source order.
Every `random.*`/`datetime.now` expression in a dict value reads one entry of
the per-call oracle bundle `ds` (index = its evaluation order); float
formatting is modelled as an integral part and a fixed-width fraction, and
the wall clock as oracle-chosen calendar fields. -/
def typeMap (ds : List Nat) : List (String × String) :=
  let dv := fun i => ds.getD i 0
  [("string", "sample_string"),
   ("normalizedstring", "sample_normalized_string"),
   ("token", "sample_token"),
   ("boolean", if dv 0 % 2 == 0 then "true" else "false"),
   ("decimal", toString (ri 1 1000 (dv 1)) ++ "." ++ pad2 (dv 2 % 100)),
   ("integer", toString (rn 1 1000 (dv 3))),
   ("long", toString (rn 1000 100000 (dv 4))),
   ("int", toString (rn 1 1000 (dv 5))),
   ("short", toString (rn 1 100 (dv 6))),
   ("byte", toString (rn 0 127 (dv 7))),
   ("nonnegativeinteger", toString (rn 0 1000 (dv 8))),
   ("positiveinteger", toString (rn 1 1000 (dv 9))),
   ("nonpositiveinteger", toString (ri (-1000) 0 (dv 10))),
   ("negativeinteger", toString (ri (-1000) (-1) (dv 11))),
   ("double", toString (ri 1 1000 (dv 12)) ++ "." ++ pad4 (dv 13 % 10000)),
   ("float", toString (ri 1 1000 (dv 14)) ++ "." ++ pad4 (dv 15 % 10000)),
   ("duration", "P1Y2M3DT4H5M6S"),
   ("datetime", pad4 (dv 16) ++ "-" ++ pad2 (dv 17) ++ "-" ++ pad2 (dv 18) ++
                "T" ++ pad2 (dv 19) ++ ":" ++ pad2 (dv 20) ++ ":" ++ pad2 (dv 21) ++ "+00:00"),
   ("time", pad2 (dv 19) ++ ":" ++ pad2 (dv 20) ++ ":" ++ pad2 (dv 21)),
   ("date", pad4 (dv 16) ++ "-" ++ pad2 (dv 17) ++ "-" ++ pad2 (dv 18)),
   ("gyearmonth", pad4 (dv 16) ++ "-" ++ pad2 (dv 17)),
   ("gyear", pad4 (dv 16)),
   ("gmonthday", "--" ++ pad2 (dv 17) ++ "-" ++ pad2 (dv 18)),
   ("gday", "---" ++ pad2 (dv 18)),
   ("gmonth", "--" ++ pad2 (dv 17) ++ "--"),
   ("hexbinary", "0FB7"),
   ("base64binary", "AQIDBA=="),
   ("anyuri", "http://example.com/resource"),
   ("qname", "tns:sampleQName"),
   ("notation", "sample_notation"),
   ("id", "id" ++ toString (rn 1000 9999 (dv 22))),
   ("idref", "idref" ++ toString (rn 1000 9999 (dv 23))),
   ("idrefs", "idrefs_1 idrefs_2"),
   ("nmtoken", "sample_NMTOKEN"),
   ("nmtokens", "sample_NMTOKEN_1 sample_NMTOKEN_2"),
   ("name", "sample_Name"),
   ("ncname", "sampleNCName"),
   ("language", "en-US"),
   ("entity", "entity_name"),
   ("entities", "entity_name_1 entity_name_2"),
   ("notations", "notation_1 notation_2"),
   ("anysimpletype", "any_simple_type_value")]

/-- Python `dict.get(key, default)` over the association list (keys are
distinct, so first match is the dict entry). -/
def dictGet : List (String × String) → String → Option String
  | [], _ => none
  | (k, v) :: rest, key => if k == key then some v else dictGet rest key

/-- `generate_sample_value`: lowercase the requested type name, look it up in
the table, and fall back to `UNKNOWN_TYPE_<original name>`. -/
def generate_sample_value (xsdTypeName : String) (ds : List Nat) : String :=
  match dictGet (typeMap ds) (pyLower xsdTypeName) with
  | some v => v
  | none => "UNKNOWN_TYPE_" ++ xsdTypeName

/-- The finite-or-unbounded `maxOccurs` bound (`float('inf')` in the source). -/
inductive MaxOcc where
  | fin (n : Int)
  | unbounded
deriving DecidableEq, Repr

/-- Python `int(s)`, raising `ValueError` on a non-numeric literal. -/
def pyParseInt (s : String) : Except PyError Int :=
  match pyStrToInt? s with
  | some n => .ok n
  | none => .error (.valueError "invalid literal for int")

/-- `_get_occurrence`: read `minOccurs` (default `"1"`) and `maxOccurs`
(default `"1"`, `"unbounded"` mapping to infinity). -/
def getOccurrence (x : XElem) : Except PyError (Int × MaxOcc) :=
  match pyParseInt ((x.getAttr "minOccurs").getD "1") with
  | .error e => .error e
  | .ok mn =>
    let ms := (x.getAttr "maxOccurs").getD "1"
    if ms == "unbounded" then .ok (mn, .unbounded)
    else
      match pyParseInt ms with
      | .error e => .error e
      | .ok mx => .ok (mn, .fin mx)

/-- `_get_global_definitions`: scan the schema root's direct children with
the given tag, keeping those with a truthy `name`; a later duplicate name
overwrites an earlier one, as in the Python dict. -/
def getGlobalDefs (schema : XElem) (tag : String) : List (String × XElem) :=
  (schema.findAll tag).filterMap (fun d =>
    match d.getAttr "name" with
    | some n => if strIsEmpty n then none else some (n, d)
    | none => none)

/-- Lookup in a built-by-insertion dict: the last binding for a key wins. -/
def dictLookupLast (l : List (String × XElem)) (k : String) : Option XElem :=
  ((l.filter (fun p => p.1 == k)).getLast?).map (·.2)

/-- `_get_type_definition`: `None` and `xs:`-prefixed names resolve to no
definition; otherwise global complex types are consulted before global
simple types, and absence falls back to `None`. -/
def getTypeDefinition (schema : XElem) : Option String → Option XElem
  | none => none
  | some t =>
    if pyStartsWith t "xs:" then none
    else
      match dictLookupLast (getGlobalDefs schema "complexType") t with
      | some d => some d
      | none => dictLookupLast (getGlobalDefs schema "simpleType") t

/-- The shared tail of `_get_xsd_type_name`'s inline branches: given the
`base` attribute of an inline restriction/extension, split off an `xs:`
prefix, else a namespace prefix, else default to `"string"`.  Faithfully
reproduces the source's `":" in base_type` test, which raises `TypeError`
when the `base` attribute is absent (`base_type is None`). -/
def baseToTypeName (base? : Option String) : Except PyError (Option String) :=
  if strTruthy base? && pyStartsWith (base?.getD "") "xs:" then
    .ok (some (splitSecond (base?.getD "")))
  else
    match base? with
    | none => .error (.typeError "argument of type NoneType is not iterable")
    | some b =>
      if strContainsChar b ':' then .ok (some (splitLast b))
      else .ok (some (if strIsEmpty b then "string" else b))

/-- `_get_xsd_type_name`: effective type name of an element/attribute
declaration. `ok none` is the source's `return None` (inline definition with
no directly mappable name). -/
def getXsdTypeName (x : XElem) : Except PyError (Option String) :=
  let t? := x.getAttr "type"
  if strTruthy t? then
    let t := t?.getD ""
    if pyStartsWith t "xs:" then .ok (some (splitSecond t))
    else if strContainsChar t ':' then .ok (some (splitLast t))
    else .ok (some t)
  else if strTruthy (x.getAttr "ref") then .ok (some "string")
  else
    match x.findChild "complexType" with
    | some ct =>
      (match ct.findChild "simpleContent" with
       | some sc =>
         (match sc.findChild "extension" with
          | some ex => baseToTypeName (ex.getAttr "base")
          | none => .ok none)
       | none => .ok none)
    | none =>
      match x.findChild "simpleType" with
      | some stp =>
        (match stp.findChild "restriction" with
         | some r => baseToTypeName (r.getAttr "base")
         | none => .ok none)
      | none => .ok (some "string")

/-- The content-model search chain used on a resolved type definition and on
an inline complex type: `find(sequence) or find(all) or find(choice) or
find(complexContent) or find(simpleContent)` with Python `or` semantics
(an element without children is falsy and is skipped). -/
def contentModelSearch (td : XElem) : Option XElem :=
  pyOr (td.findChild "sequence")
    (pyOr (td.findChild "all")
      (pyOr (td.findChild "choice")
        (pyOr (td.findChild "complexContent") (td.findChild "simpleContent"))))

/-- The shorter search chain used on the base type of a complexContent
extension (no `simpleContent` alternative). -/
def baseContentSearch (td : XElem) : Option XElem :=
  pyOr (td.findChild "sequence")
    (pyOr (td.findChild "all")
      (pyOr (td.findChild "choice") (td.findChild "complexContent")))

/-- Generation state: the occurrence-decision oracle stream, the
value-synthesis oracle stream (one bundle per `generate_sample_value` call or
enumeration `random.choice`), and the accumulated non-fatal warnings. -/
structure GenSt where
  occ : List Nat
  val : List (List Nat)
  warns : List String
deriving DecidableEq, Repr

def GenSt.headOcc (st : GenSt) : Nat := st.occ.headD 0

def GenSt.advanceOcc (st : GenSt) : GenSt := { st with occ := st.occ.tail }

def GenSt.headVal (st : GenSt) : List Nat := st.val.headD []

def GenSt.advanceVal (st : GenSt) : GenSt := { st with val := st.val.tail }

def GenSt.pushWarn (st : GenSt) (w : String) : GenSt :=
  { st with warns := st.warns ++ [w] }

/-- The occurrence-count decision of `_generate_xml_element` (lines 353-364):
`maxOccurs = unbounded` draws `randint(min, min(min+1, 2))`; a finite
`maxOccurs > 1` draws `randint(min, max)`; both force a zero draw up to 1
when `minOccurs = 0`; an optional element (`minOccurs = 0`, remaining cases)
is skipped by a coin flip; otherwise the count is 1. -/
def sampleOccurrences (mn : Int) (mx : MaxOcc) (st : GenSt) : Except PyError (Int × GenSt) :=
  match mx with
  | .unbounded =>
    (match pyRandint mn (min (mn + 1) 2) st.headOcc with
     | .error e => .error e
     | .ok n => .ok (if n == 0 && mn == 0 then 1 else n, st.advanceOcc))
  | .fin m =>
    if 1 < m then
      (match pyRandint mn m st.headOcc with
       | .error e => .error e
       | .ok n => .ok (if n == 0 && mn == 0 then 1 else n, st.advanceOcc))
    else if mn == 0 then
      .ok (if pyCoin st.headOcc then 0 else 1, st.advanceOcc)
    else .ok (1, st)

/-- One iteration of `_process_attributes`' main loop: a named attribute
declaration gets a synthesized value for its resolved type (`TypeError` /
`AttributeError` propagate as in the source); an unnamed declaration with a
`ref` gets a placeholder keyed by the reference's local name; otherwise a
warning is recorded. -/
def processOneAttr (parent : XElem) (attr : XElem) (st : GenSt) :
    Except PyError (XElem × GenSt) :=
  if strTruthy (attr.getAttr "name") then
    let nm := (attr.getAttr "name").getD ""
    match getXsdTypeName attr with
    | .error e => .error e
    | .ok none => .error (.attributeError "NoneType object has no attribute lower")
    | .ok (some t) =>
      .ok (parent.setAttr nm (generate_sample_value t st.headVal), st.advanceVal)
  else
    match attr.getAttr "ref" with
    | some rf =>
      if strIsEmpty rf then
        .ok (parent, st.pushWarn "attribute definition without name or ref")
      else
        let nm := splitLast rf
        .ok (parent.setAttr nm ("ref_value_for_" ++ nm), st)
    | none => .ok (parent, st.pushWarn "attribute definition without name or ref")

def processAttrList (parent : XElem) (attrs : List XElem) (st : GenSt) :
    Except PyError (XElem × GenSt) :=
  match attrs with
  | [] => .ok (parent, st)
  | a :: rest =>
    match processOneAttr parent a st with
    | .error e => .error e
    | .ok (parent', st') => processAttrList parent' rest st'

/-- `attributeGroup` references are detected but only warned about. -/
def warnAttrGroups (groups : List XElem) (st : GenSt) : GenSt :=
  groups.foldl (fun s g =>
    if strTruthy (g.getAttr "ref") then s.pushWarn "attributeGroup reference not resolved"
    else s) st

/-- `_process_attributes`: process each direct `attribute` child of the
definition, then warn on each `attributeGroup` reference. -/
def processAttributes (parent : XElem) (defn : XElem) (st : GenSt) :
    Except PyError (XElem × GenSt) :=
  match processAttrList parent (defn.findAll "attribute") st with
  | .error e => .error e
  | .ok (parent', st') => .ok (parent', warnAttrGroups (defn.findAll "attributeGroup") st')

/-- `xs:group` references inside a sequence/all are warned about, one warning
per reference, and skipped. -/
def warnGroups (groups : List XElem) (st : GenSt) : GenSt :=
  groups.foldl (fun s _ => s.pushWarn "group reference not resolved") st

/-- The text-content synthesis shared by the two inline/global simpleType
branches of `_generate_xml_element` (restriction with an `xs:` base uses the
value synthesizer; otherwise the enumeration facets are sampled; otherwise
the given fallback text is used). -/
def simpleRestrictionText (r : XElem) (noEnumFallback : String) (st : GenSt) :
    Option String × GenSt :=
  let base? := r.getAttr "base"
  if strTruthy base? && pyStartsWith (base?.getD "") "xs:" then
    (some (generate_sample_value (splitSecond (base?.getD "")) st.headVal), st.advanceVal)
  else
    let enums := (r.findAll "enumeration").map (fun e => e.getAttr "value")
    if enums.isEmpty then (some noEnumFallback, st)
    else (pyChoiceOpt enums (st.headVal.headD 0), st.advanceVal)

/-- Text synthesis for a `simpleContent` extension: sample from the `base`
type (the local name after an `xs:`/namespace prefix), defaulting to
`"string"` when no base is given. -/
def simpleContentExtText (ex : XElem) (st : GenSt) : Option String × GenSt :=
  let base? := ex.getAttr "base"
  if strTruthy base? then
    let b := base?.getD ""
    (some (generate_sample_value
      (if pyStartsWith b "xs:" then splitSecond b else splitLast b) st.headVal), st.advanceVal)
  else
    (some (generate_sample_value "string" st.headVal), st.advanceVal)

/-- Text synthesis for a `simpleContent` restriction: an `xs:` base uses the
value synthesizer; otherwise enumeration facets are sampled when present,
with custom-base / no-base fallbacks as in the source. -/
def simpleContentRestrText (r : XElem) (st : GenSt) : Option String × GenSt :=
  let base? := r.getAttr "base"
  if strTruthy base? then
    let b := base?.getD ""
    if pyStartsWith b "xs:" then
      (some (generate_sample_value (splitSecond b) st.headVal), st.advanceVal)
    else
      let enums := (r.findAll "enumeration").map (fun e => e.getAttr "value")
      if enums.isEmpty then
        (some (generate_sample_value (splitLast b) st.headVal), st.advanceVal)
      else (pyChoiceOpt enums (st.headVal.headD 0), st.advanceVal)
  else
    let enums := (r.findAll "enumeration").map (fun e => e.getAttr "value")
    if enums.isEmpty then
      (some (generate_sample_value "string" st.headVal), st.advanceVal)
    else (pyChoiceOpt enums (st.headVal.headD 0), st.advanceVal)

/-- The pending-call alternatives of the mutually recursive generator core.
Using one fuel-indexed interpreter (`engine`) instead of a mutual block keeps
every equation definitional, so concrete runs reduce by `rfl`. -/
inductive EngineCall where
  | genElem (schema parent decl : XElem)
  | genRepeat (schema parent decl : XElem) (name : String) (count : Nat)
  | genOne (schema decl : XElem) (name : String)
  | genList (schema parent : XElem) (decls : List XElem)
  | pcm (schema parent cm : XElem)
  | ccExt (schema parent ext : XElem)
  | ccBase (schema parent ext : XElem)
  | ccOwn (schema parent ext : XElem)

/-- The recursive core of the generator: `_generate_xml_element` (genElem /
genRepeat / genOne), `_process_content_model` (pcm, with the complexContent
extension split into its base part ccBase and its own part ccOwn), and the
per-child loop of a sequence/all (genList).  The fuel models Python's
recursion limit: running out raises `RecursionError`, which on genuinely
self-referential schemas is the source's actual behaviour. -/
def engine : Nat → EngineCall → GenSt → Except PyError (XElem × GenSt)
  | 0, _, _ => .error .recursionError
  | fuel + 1, c, st =>
    match c with
    | .genElem schema parent decl =>
      if !strTruthy (decl.getAttr "name") then
        .ok (parent, st.pushWarn "skipping unnamed element")
      else
        let name := (decl.getAttr "name").getD ""
        (match getOccurrence decl with
         | .error e => .error e
         | .ok (mn, mx) =>
           if mn == 0 && mx == .fin 0 then .ok (parent, st)
           else
             match sampleOccurrences mn mx st with
             | .error e => .error e
             | .ok (num, st') =>
               if num ≤ 0 then .ok (parent, st')
               else engine fuel (.genRepeat schema parent decl name num.toNat) st')
    | .genRepeat schema parent decl name count =>
      (match count with
       | 0 => .ok (parent, st)
       | k + 1 =>
         match engine fuel (.genOne schema decl name) st with
         | .error e => .error e
         | .ok (child, st') =>
           engine fuel (.genRepeat schema (parent.appendChild child) decl name k) st')
    | .genOne schema decl name =>
      let child := XElem.node name [] [] none
      (match getXsdTypeName decl with
       | .error e => .error e
       | .ok typeName? =>
         match getTypeDefinition schema typeName? with
         | some td =>
           (match processAttributes child td st with
            | .error e => .error e
            | .ok (child', st') =>
              match contentModelSearch td with
              | some cm => engine fuel (.pcm schema child' cm) st'
              | none =>
                if td.tag == "simpleType" then
                  match td.findChild "restriction" with
                  | some r =>
                    .ok (child'.setText
                        (simpleRestrictionText r
                          ("SIMPLE_TYPE_NO_BASE_OR_ENUM_" ++ pyShow typeName?) st').1,
                      (simpleRestrictionText r
                        ("SIMPLE_TYPE_NO_BASE_OR_ENUM_" ++ pyShow typeName?) st').2)
                  | none =>
                    .ok (child'.setText
                      (some ("SIMPLE_TYPE_NO_RESTRICTION_" ++ pyShow typeName?)), st')
                else .ok (child', st'))
         | none =>
           (match processAttributes child decl st with
            | .error e => .error e
            | .ok (child', st') =>
              match decl.findChild "complexType" with
              | some ict =>
                (match contentModelSearch ict with
                 | some cm => engine fuel (.pcm schema child' cm) st'
                 | none => .ok (child', st'))
              | none =>
                match decl.findChild "simpleType" with
                | some ist =>
                  (match ist.findChild "restriction" with
                   | some r =>
                     .ok (child'.setText
                         (simpleRestrictionText r "INLINE_SIMPLE_TYPE_NO_BASE_OR_ENUM" st').1,
                       (simpleRestrictionText r "INLINE_SIMPLE_TYPE_NO_BASE_OR_ENUM" st').2)
                   | none =>
                     .ok (child'.setText (some "INLINE_SIMPLE_TYPE_NO_RESTRICTION"), st'))
                | none =>
                  match typeName? with
                  | none => .error (.attributeError "NoneType object has no attribute lower")
                  | some t =>
                    .ok (child'.setText (some (generate_sample_value t st'.headVal)),
                      st'.advanceVal)))
    | .genList schema parent decls =>
      (match decls with
       | [] => .ok (parent, st)
       | d :: rest =>
         match engine fuel (.genElem schema parent d) st with
         | .error e => .error e
         | .ok (parent', st') => engine fuel (.genList schema parent' rest) st')
    | .pcm schema parent cm =>
      if cm.tag == "sequence" || cm.tag == "all" then
        match engine fuel (.genList schema parent (cm.findAll "element")) st with
        | .error e => .error e
        | .ok (parent', st') => .ok (parent', warnGroups (cm.findAll "group") st')
      else if cm.tag == "choice" then
        match cm.findChild "element" with
        | some first => engine fuel (.genElem schema parent first) st
        | none => .ok (parent, st.pushWarn "choice contains no elements")
      else if cm.tag == "complexContent" then
        match cm.findChild "extension" with
        | some ext => engine fuel (.ccExt schema parent ext) st
        | none =>
          (match cm.findChild "restriction" with
           | some r =>
             let st₁ := st.pushWarn "complexContent with restriction is not fully generated"
             (match processAttributes parent r st₁ with
              | .error e => .error e
              | .ok (parent', st₂) =>
                match r.findChild "sequence" with
                | some sq => engine fuel (.pcm schema parent' sq) st₂
                | none => .ok (parent', st₂))
           | none => .ok (parent, st.pushWarn "complexContent has no extension or restriction"))
      else if cm.tag == "simpleContent" then
        match cm.findChild "extension" with
        | some ex =>
          processAttributes (parent.setText (simpleContentExtText ex st).1) ex
            (simpleContentExtText ex st).2
        | none =>
          (match cm.findChild "restriction" with
           | some r =>
             processAttributes (parent.setText (simpleContentRestrText r st).1) r
               (simpleContentRestrText r st).2
           | none => .ok (parent, st.pushWarn "simpleContent has no extension or restriction"))
      else .ok (parent, st.pushWarn "unhandled content model tag")
    | .ccExt schema parent ext =>
      (match engine fuel (.ccBase schema parent ext) st with
       | .error e => .error e
       | .ok (parent', st') => engine fuel (.ccOwn schema parent' ext) st')
    | .ccBase schema parent ext =>
      let baseDef? := getTypeDefinition schema (ext.getAttr "base")
      (match baseDef? with
       | some bd =>
         if pyTruthyElem bd then
           match processAttributes parent bd st with
           | .error e => .error e
           | .ok (parent', st') =>
             (match baseContentSearch bd with
              | some bcm => engine fuel (.pcm schema parent' bcm) st'
              | none => .ok (parent', st'))
         else .ok (parent, st)
       | none => .ok (parent, st))
    | .ccOwn schema parent ext =>
      (match processAttributes parent ext st with
       | .error e => .error e
       | .ok (parent', st') =>
         match ext.findChild "sequence" with
         | some sq => engine fuel (.pcm schema parent' sq) st'
         | none => .ok (parent', st'))

/-- `_generate_xml_element`. -/
def generateXmlElement (fuel : Nat) (schema parent decl : XElem) (st : GenSt) :
    Except PyError (XElem × GenSt) :=
  engine fuel (.genElem schema parent decl) st

/-- `_process_content_model`. -/
def processContentModel (fuel : Nat) (schema parent cm : XElem) (st : GenSt) :
    Except PyError (XElem × GenSt) :=
  engine fuel (.pcm schema parent cm) st

/-- The complexContent/extension branch of `_process_content_model`. -/
def processCCExtension (fuel : Nat) (schema parent ext : XElem) (st : GenSt) :
    Except PyError (XElem × GenSt) :=
  engine fuel (.ccExt schema parent ext) st

/-- Applying the resolved base type of a complexContent extension (its
attributes and its content model) to the target element. -/
def applyCCExtensionBase (fuel : Nat) (schema parent ext : XElem) (st : GenSt) :
    Except PyError (XElem × GenSt) :=
  engine fuel (.ccBase schema parent ext) st

/-- Applying the attributes and the `sequence` declared directly inside a
complexContent extension to the target element. -/
def applyCCExtensionOwn (fuel : Nat) (schema parent ext : XElem) (st : GenSt) :
    Except PyError (XElem × GenSt) :=
  engine fuel (.ccOwn schema parent ext) st

/-- `generate_xml`: locate the requested root element declaration among the
schema root's direct children (or default to the first global element),
create the root output element and run the element generator on it.
A missing requested root raises `ValueError` before any generation. -/
def generateXml (fuel : Nat) (schema : XElem) (rootName? : Option String) (st : GenSt) :
    Except PyError (XElem × GenSt) :=
  match rootName? with
  | some rn =>
    (match (schema.findAll "element").find? (fun e => e.getAttr "name" == some rn) with
     | none => .error (.valueError ("Root element " ++ rn ++ " not found in XSD"))
     | some rootDecl =>
       match rootDecl.getAttr "name" with
       | none => .error (.typeError "Element name must not be None")
       | some nm => generateXmlElement fuel schema (XElem.node nm [] [] none) rootDecl st)
  | none =>
    match schema.findChild "element" with
    | none => .error (.valueError "No global element definition found in the XSD")
    | some rootDecl =>
      match rootDecl.getAttr "name" with
      | none => .error (.typeError "Element name must not be None")
      | some nm => generateXmlElement fuel schema (XElem.node nm [] [] none) rootDecl st

/-! ## Structure erasure and schema observations -/

mutual
/-- Erase everything run-dependent from a generated document: attribute
values become `""` (names are kept) and text is dropped; tags and the child
tree shape remain. -/
def strip : XElem → XElem
  | .node t a cs _ => .node t (a.map (fun p => (p.1, ""))) (stripList cs) none

def stripList : List XElem → List XElem
  | [] => []
  | c :: cs => strip c :: stripList cs
end

mutual
/-- Total number of element nodes in a tree. -/
def countNodes : XElem → Nat
  | .node _ _ cs _ => 1 + countNodesList cs

def countNodesList : List XElem → Nat
  | [] => 0
  | c :: cs => countNodes c + countNodesList cs
end

mutual
/-- Whether any declaration in a schema tree carries `minOccurs="0"`
(i.e. whether the schema declares any optional node at all). -/
def mentionsMinZero : XElem → Bool
  | .node _ a cs _ =>
    a.any (fun p => p.1 == "minOccurs" && p.2 == "0") || mentionsMinZeroList cs

def mentionsMinZeroList : List XElem → Bool
  | [] => false
  | c :: cs => mentionsMinZero c || mentionsMinZeroList cs
end

theorem stripList_append (a b : List XElem) :
    stripList (a ++ b) = stripList a ++ stripList b := by
  induction a with
  | nil => rfl
  | cons c cs ih => simp [stripList, ih]

theorem strip_tag (e : XElem) : (strip e).tag = e.tag := by
  cases e with
  | node t a cs x => rfl

theorem strip_children (e : XElem) : (strip e).children = stripList e.children := by
  cases e with
  | node t a cs x => rfl

theorem strip_attrs (e : XElem) : (strip e).attrs = e.attrs.map (fun p => (p.1, "")) := by
  cases e with
  | node t a cs x => rfl

/-! ## Small facts about the state and element operations -/

theorem setAttr_tag (e : XElem) (k v : String) : (e.setAttr k v).tag = e.tag := by
  cases e; rfl

theorem setAttr_children (e : XElem) (k v : String) :
    (e.setAttr k v).children = e.children := by
  cases e; rfl

theorem setAttr_text (e : XElem) (k v : String) : (e.setAttr k v).text = e.text := by
  cases e; rfl

theorem setText_tag (e : XElem) (x : Option String) : (e.setText x).tag = e.tag := by
  cases e; rfl

theorem setText_children (e : XElem) (x : Option String) :
    (e.setText x).children = e.children := by
  cases e; rfl

theorem appendChild_tag (e c : XElem) : (e.appendChild c).tag = e.tag := by
  cases e; rfl

theorem appendChild_children (e c : XElem) :
    (e.appendChild c).children = e.children ++ [c] := by
  cases e; rfl

theorem appendChild_attrs (e c : XElem) : (e.appendChild c).attrs = e.attrs := by
  cases e; rfl

theorem appendChild_text (e c : XElem) : (e.appendChild c).text = e.text := by
  cases e; rfl

theorem withChildren_tag (e : XElem) (cs : List XElem) :
    (e.withChildren cs).tag = e.tag := by
  cases e; rfl

theorem withChildren_children (e : XElem) (cs : List XElem) :
    (e.withChildren cs).children = cs := by
  cases e; rfl

theorem appendChild_eq_withChildren (e c : XElem) :
    e.appendChild c = e.withChildren (e.children ++ [c]) := by
  cases e; rfl

theorem withChildren_withChildren (e : XElem) (cs ds : List XElem) :
    (e.withChildren cs).withChildren ds = e.withChildren ds := by
  cases e; rfl

theorem withChildren_self (e : XElem) : e.withChildren e.children = e := by
  cases e; rfl

theorem pushWarn_occ (st : GenSt) (w : String) : (st.pushWarn w).occ = st.occ := rfl

theorem pushWarn_val (st : GenSt) (w : String) : (st.pushWarn w).val = st.val := rfl

theorem advanceVal_occ (st : GenSt) : st.advanceVal.occ = st.occ := rfl

theorem advanceOcc_occ (st : GenSt) : st.advanceOcc.occ = st.occ.tail := rfl

theorem warnAttrGroups_occ (g : List XElem) (st : GenSt) :
    (warnAttrGroups g st).occ = st.occ := by
  induction g generalizing st with
  | nil => rfl
  | cons x xs ih =>
    simp only [warnAttrGroups, List.foldl_cons] at *
    by_cases h : strTruthy (x.getAttr "ref") <;> simp [h, ih, pushWarn_occ]

theorem warnGroups_occ (g : List XElem) (st : GenSt) :
    (warnGroups g st).occ = st.occ := by
  induction g generalizing st with
  | nil => rfl
  | cons x xs ih => simp only [warnGroups, List.foldl_cons] at *; simp [ih, pushWarn_occ]

theorem strTruthy_eq_some (o : Option String) (h : strTruthy o = true) :
    o = some (o.getD "") := by
  cases o with
  | none => simp [strTruthy] at h
  | some s => rfl

/-! ## The generator only appends children (shape lemmas) -/

theorem processOneAttr_shape {p a st p' st'} (h : processOneAttr p a st = .ok (p', st')) :
    p'.children = p.children ∧ p'.tag = p.tag ∧ p'.text = p.text := by
  unfold processOneAttr at h
  split at h
  · split at h
    · exact absurd h (by simp)
    · exact absurd h (by simp)
    · simp only [Except.ok.injEq, Prod.mk.injEq] at h
      obtain ⟨h1, -⟩ := h
      subst h1
      exact ⟨setAttr_children .., setAttr_tag .., setAttr_text ..⟩
  · split at h
    · split at h
      · simp only [Except.ok.injEq, Prod.mk.injEq] at h
        obtain ⟨h1, -⟩ := h; subst h1; exact ⟨rfl, rfl, rfl⟩
      · simp only [Except.ok.injEq, Prod.mk.injEq] at h
        obtain ⟨h1, -⟩ := h; subst h1
        exact ⟨setAttr_children .., setAttr_tag .., setAttr_text ..⟩
    · simp only [Except.ok.injEq, Prod.mk.injEq] at h
      obtain ⟨h1, -⟩ := h; subst h1; exact ⟨rfl, rfl, rfl⟩

theorem processAttrList_shape {attrs} : ∀ {p st p' st'},
    processAttrList p attrs st = .ok (p', st') →
    p'.children = p.children ∧ p'.tag = p.tag ∧ p'.text = p.text := by
  induction attrs with
  | nil =>
    intro p st p' st' h
    simp only [processAttrList, Except.ok.injEq, Prod.mk.injEq] at h
    obtain ⟨h1, -⟩ := h; subst h1; exact ⟨rfl, rfl, rfl⟩
  | cons a rest ih =>
    intro p st p' st' h
    simp only [processAttrList] at h
    split at h
    · exact absurd h (by simp)
    · next p₁ st₁ heq =>
      obtain ⟨c1, t1, x1⟩ := processOneAttr_shape heq
      obtain ⟨c2, t2, x2⟩ := ih h
      exact ⟨c2.trans c1, t2.trans t1, x2.trans x1⟩

theorem processAttributes_shape {p d st p' st'}
    (h : processAttributes p d st = .ok (p', st')) :
    p'.children = p.children ∧ p'.tag = p.tag ∧ p'.text = p.text := by
  unfold processAttributes at h
  split at h
  · exact absurd h (by simp)
  · next p₁ st₁ heq =>
    simp only [Except.ok.injEq, Prod.mk.injEq] at h
    obtain ⟨h1, -⟩ := h; subst h1
    exact processAttrList_shape heq

/-- What successful engine calls promise about the produced element, per
call kind: element generation only appends instances (all bearing the
declaration's name) under the parent; content-model processing only appends
children and keeps the parent's tag. -/
def ShapeConc : EngineCall → XElem → Prop
  | .genElem _ parent decl, p' =>
    ∃ k, p' = parent.withChildren (parent.children ++ k) ∧
      ∀ x ∈ k, some x.tag = decl.getAttr "name"
  | .genRepeat _ parent _ name _, p' =>
    ∃ k, p' = parent.withChildren (parent.children ++ k) ∧ ∀ x ∈ k, x.tag = name
  | .genOne _ _ name, p' => p'.tag = name
  | .genList _ parent _, p' => ∃ k, p'.children = parent.children ++ k ∧ p'.tag = parent.tag
  | .pcm _ parent _, p' => ∃ k, p'.children = parent.children ++ k ∧ p'.tag = parent.tag
  | .ccExt _ parent _, p' => ∃ k, p'.children = parent.children ++ k ∧ p'.tag = parent.tag
  | .ccBase _ parent _, p' => ∃ k, p'.children = parent.children ++ k ∧ p'.tag = parent.tag
  | .ccOwn _ parent _, p' => ∃ k, p'.children = parent.children ++ k ∧ p'.tag = parent.tag

theorem engine_shape : ∀ fuel c st p' st',
    engine fuel c st = .ok (p', st') → ShapeConc c p' := by
  intro fuel
  induction fuel with
  | zero => intro c st p' st' h; exact absurd h (by simp [engine])
  | succ fuel ih =>
    intro c st p' st' h
    cases c with
    | genElem schema parent decl =>
      simp only [engine] at h
      split at h
      · simp only [Except.ok.injEq, Prod.mk.injEq] at h
        obtain ⟨h1, -⟩ := h; subst h1
        exact ⟨[], by simp [withChildren_self], by simp⟩
      · next hnamed =>
        split at h
        · exact absurd h (by simp)
        · split at h
          · simp only [Except.ok.injEq, Prod.mk.injEq] at h
            obtain ⟨h1, -⟩ := h; subst h1
            exact ⟨[], by simp [withChildren_self], by simp⟩
          · split at h
            · exact absurd h (by simp)
            · split at h
              · simp only [Except.ok.injEq, Prod.mk.injEq] at h
                obtain ⟨h1, -⟩ := h; subst h1
                exact ⟨[], by simp [withChildren_self], by simp⟩
              · obtain ⟨k, hk, htags⟩ := ih _ _ _ _ h
                refine ⟨k, hk, fun x hx => ?_⟩
                rw [htags x hx]
                rw [Bool.not_eq_true', Bool.not_eq_false] at hnamed
                exact (strTruthy_eq_some _ hnamed).symm
    | genRepeat schema parent decl name count =>
      simp only [engine] at h
      split at h
      · simp only [Except.ok.injEq, Prod.mk.injEq] at h
        obtain ⟨h1, -⟩ := h; subst h1
        exact ⟨[], by simp [withChildren_self], by simp⟩
      · split at h
        · exact absurd h (by simp)
        · next child st₁ hone =>
          obtain ⟨k, hk, htags⟩ := ih _ _ _ _ h
          have hct : child.tag = name := ih _ _ _ _ hone
          refine ⟨child :: k, ?_, ?_⟩
          · rw [hk, appendChild_eq_withChildren, withChildren_withChildren,
              withChildren_children]
            simp
          · intro x hx
            rcases List.mem_cons.mp hx with h1 | h2
            · rw [h1]; exact hct
            · exact htags x h2
    | genOne schema decl name =>
      simp only [engine] at h
      split at h
      · exact absurd h (by simp)
      · split at h
        · next td _ =>
          split at h
          · exact absurd h (by simp)
          · next child₁ st₁ hpa =>
            have hc₁ : child₁.tag = name := by
              have := (processAttributes_shape hpa).2.1
              simpa using this
            split at h
            · have := ih _ _ _ _ h
              simp only [ShapeConc] at this
              exact this.choose_spec.2.trans hc₁
            · split at h
              · split at h
                · simp only [Except.ok.injEq, Prod.mk.injEq] at h
                  obtain ⟨h1, -⟩ := h; subst h1
                  simpa [setText_tag] using hc₁
                · simp only [Except.ok.injEq, Prod.mk.injEq] at h
                  obtain ⟨h1, -⟩ := h; subst h1
                  simpa [setText_tag] using hc₁
              · simp only [Except.ok.injEq, Prod.mk.injEq] at h
                obtain ⟨h1, -⟩ := h; subst h1; exact hc₁
        · split at h
          · exact absurd h (by simp)
          · next child₁ st₁ hpa =>
            have hc₁ : child₁.tag = name := by
              have := (processAttributes_shape hpa).2.1
              simpa using this
            split at h
            · split at h
              · have := ih _ _ _ _ h
                simp only [ShapeConc] at this
                exact this.choose_spec.2.trans hc₁
              · simp only [Except.ok.injEq, Prod.mk.injEq] at h
                obtain ⟨h1, -⟩ := h; subst h1; exact hc₁
            · split at h
              · split at h
                · simp only [Except.ok.injEq, Prod.mk.injEq] at h
                  obtain ⟨h1, -⟩ := h; subst h1
                  simpa [setText_tag] using hc₁
                · simp only [Except.ok.injEq, Prod.mk.injEq] at h
                  obtain ⟨h1, -⟩ := h; subst h1
                  simpa [setText_tag] using hc₁
              · split at h
                · exact absurd h (by simp)
                · simp only [Except.ok.injEq, Prod.mk.injEq] at h
                  obtain ⟨h1, -⟩ := h; subst h1
                  simpa [setText_tag] using hc₁
    | genList schema parent decls =>
      simp only [engine] at h
      split at h
      · simp only [Except.ok.injEq, Prod.mk.injEq] at h
        obtain ⟨h1, -⟩ := h; subst h1
        exact ⟨[], by simp, rfl⟩
      · split at h
        · exact absurd h (by simp)
        · next p₁ st₁ hel =>
          obtain ⟨k₁, hk₁, -⟩ := ih _ _ _ _ hel
          obtain ⟨k₂, hk₂, ht₂⟩ := ih _ _ _ _ h
          subst hk₁
          refine ⟨k₁ ++ k₂, ?_, ?_⟩
          · rw [hk₂, withChildren_children]; simp
          · rw [ht₂, withChildren_tag]
    | pcm schema parent cm =>
      simp only [engine] at h
      split at h
      · -- sequence / all
        split at h
        · exact absurd h (by simp)
        · next p₁ st₁ hlist =>
          simp only [Except.ok.injEq, Prod.mk.injEq] at h
          obtain ⟨h1, -⟩ := h; subst h1
          obtain ⟨k, hk, ht⟩ :=
            ih (.genList schema parent (cm.findAll "element")) st p₁ st₁ hlist
          exact ⟨k, hk, ht⟩
      · split at h
        · -- choice
          split at h
          · next first hfirst =>
            obtain ⟨k, hk, -⟩ := ih (.genElem schema parent first) st p' st' h
            subst hk
            exact ⟨k, by rw [withChildren_children], by rw [withChildren_tag]⟩
          · simp only [Except.ok.injEq, Prod.mk.injEq] at h
            obtain ⟨h1, -⟩ := h; subst h1
            exact ⟨[], by simp, rfl⟩
        · split at h
          · -- complexContent
            split at h
            · next ext hext =>
              obtain ⟨k, hk, ht⟩ := ih (.ccExt schema parent ext) st p' st' h
              exact ⟨k, hk, ht⟩
            · split at h
              · next r hr =>
                split at h
                · exact absurd h (by simp)
                · next p₁ st₂ hpa =>
                  obtain ⟨hc₁, ht₁, -⟩ := processAttributes_shape hpa
                  split at h
                  · next sq hsq =>
                    obtain ⟨k, hk, ht⟩ := ih (.pcm schema p₁ sq) st₂ p' st' h
                    exact ⟨k, by rw [hk, hc₁], by rw [ht, ht₁]⟩
                  · simp only [Except.ok.injEq, Prod.mk.injEq] at h
                    obtain ⟨h1, -⟩ := h; subst h1
                    exact ⟨[], by rw [hc₁]; simp, ht₁⟩
              · simp only [Except.ok.injEq, Prod.mk.injEq] at h
                obtain ⟨h1, -⟩ := h; subst h1
                exact ⟨[], by simp, rfl⟩
          · split at h
            · -- simpleContent
              split at h
              · next ex hex =>
                obtain ⟨hc₁, ht₁, -⟩ := processAttributes_shape h
                exact ⟨[], by rw [hc₁, setText_children]; simp, by rw [ht₁, setText_tag]⟩
              · split at h
                · next r hr =>
                  obtain ⟨hc₁, ht₁, -⟩ := processAttributes_shape h
                  exact ⟨[], by rw [hc₁, setText_children]; simp, by rw [ht₁, setText_tag]⟩
                · simp only [Except.ok.injEq, Prod.mk.injEq] at h
                  obtain ⟨h1, -⟩ := h; subst h1
                  exact ⟨[], by simp, rfl⟩
            · simp only [Except.ok.injEq, Prod.mk.injEq] at h
              obtain ⟨h1, -⟩ := h; subst h1
              exact ⟨[], by simp, rfl⟩
    | ccExt schema parent ext =>
      simp only [engine] at h
      split at h
      · exact absurd h (by simp)
      · next p₁ st₁ hbase =>
        obtain ⟨k₁, hk₁, ht₁⟩ := ih (.ccBase schema parent ext) st p₁ st₁ hbase
        obtain ⟨k₂, hk₂, ht₂⟩ := ih (.ccOwn schema p₁ ext) st₁ p' st' h
        exact ⟨k₁ ++ k₂, by rw [hk₂, hk₁]; simp, by rw [ht₂, ht₁]⟩
    | ccBase schema parent ext =>
      simp only [engine] at h
      split at h
      · next bd hbd =>
        split at h
        · split at h
          · exact absurd h (by simp)
          · next p₁ st₁ hpa =>
            obtain ⟨hc₁, ht₁, -⟩ := processAttributes_shape hpa
            split at h
            · next bcm hbcm =>
              obtain ⟨k, hk, ht⟩ := ih (.pcm schema p₁ bcm) st₁ p' st' h
              exact ⟨k, by rw [hk, hc₁], by rw [ht, ht₁]⟩
            · simp only [Except.ok.injEq, Prod.mk.injEq] at h
              obtain ⟨h1, -⟩ := h; subst h1
              exact ⟨[], by rw [hc₁]; simp, ht₁⟩
        · simp only [Except.ok.injEq, Prod.mk.injEq] at h
          obtain ⟨h1, -⟩ := h; subst h1
          exact ⟨[], by simp, rfl⟩
      · simp only [Except.ok.injEq, Prod.mk.injEq] at h
        obtain ⟨h1, -⟩ := h; subst h1
        exact ⟨[], by simp, rfl⟩
    | ccOwn schema parent ext =>
      simp only [engine] at h
      split at h
      · exact absurd h (by simp)
      · next p₁ st₁ hpa =>
        obtain ⟨hc₁, ht₁, -⟩ := processAttributes_shape hpa
        split at h
        · next sq hsq =>
          obtain ⟨k, hk, ht⟩ := ih (.pcm schema p₁ sq) st₁ p' st' h
          exact ⟨k, by rw [hk, hc₁], by rw [ht, ht₁]⟩
        · simp only [Except.ok.injEq, Prod.mk.injEq] at h
          obtain ⟨h1, -⟩ := h; subst h1
          exact ⟨[], by rw [hc₁]; simp, ht₁⟩

/-! ## Structure is determined by the occurrence oracle alone -/

theorem strip_eq_iff {p q : XElem} :
    strip p = strip q ↔
      p.tag = q.tag ∧
      p.attrs.map (fun x => (x.1, "")) = q.attrs.map (fun x => (x.1, "")) ∧
      stripList p.children = stripList q.children := by
  cases p with
  | node t a cs x =>
    cases q with
    | node t' a' cs' x' =>
      simp [strip, XElem.tag, XElem.attrs, XElem.children, XElem.node.injEq]

theorem setAttrList_names :
    ∀ {l₁ l₂ : List (String × String)},
      l₁.map (fun x => (x.1, "")) = l₂.map (fun x => (x.1, "")) →
      ∀ (k v₁ v₂ : String),
        (setAttrList l₁ k v₁).map (fun x => (x.1, "")) =
          (setAttrList l₂ k v₂).map (fun x => (x.1, "")) := by
  intro l₁
  induction l₁ with
  | nil =>
    intro l₂ h k v₁ v₂
    cases l₂ with
    | nil => simp [setAttrList]
    | cons b t₂ => simp at h
  | cons a t₁ ih =>
    intro l₂ h k v₁ v₂
    cases l₂ with
    | nil => simp at h
    | cons b t₂ =>
      simp only [List.map_cons, List.cons.injEq, Prod.mk.injEq] at h
      obtain ⟨⟨hk, -⟩, ht⟩ := h
      simp only [setAttrList]
      by_cases hkk : a.1 == k
      · have hbk : b.1 == k := by rw [← hk]; exact hkk
        simp [hkk, hbk, ht]
      · have hbk : ¬ (b.1 == k) = true := by rw [← hk]; exact hkk
        simp only [hkk, hbk, if_false, Bool.false_eq_true, List.map_cons]
        exact by simp [hk, ih ht k v₁ v₂]

theorem strip_setAttr {p q : XElem} (h : strip p = strip q) (k v₁ v₂ : String) :
    strip (p.setAttr k v₁) = strip (q.setAttr k v₂) := by
  rw [strip_eq_iff] at h ⊢
  obtain ⟨h1, h2, h3⟩ := h
  refine ⟨by simpa [setAttr_tag] using h1, ?_, by simpa [setAttr_children] using h3⟩
  cases p with
  | node t a cs x =>
    cases q with
    | node t' a' cs' x' =>
      simpa [XElem.setAttr, XElem.attrs] using setAttrList_names h2 k v₁ v₂

theorem strip_setText (p : XElem) (x : Option String) :
    strip (p.setText x) = strip p := by
  cases p; rfl

theorem strip_appendChild {p q c d : XElem}
    (h : strip p = strip q) (hc : strip c = strip d) :
    strip (p.appendChild c) = strip (q.appendChild d) := by
  rw [strip_eq_iff] at h ⊢
  obtain ⟨h1, h2, h3⟩ := h
  refine ⟨by simpa [appendChild_tag] using h1,
    by simpa [appendChild_attrs] using h2, ?_⟩
  simp only [appendChild_children, stripList_append]
  rw [h3]
  simp [stripList, hc]

/-- Result equivalence for two generator runs that may differ only in
value-synthesis randomness: same error, or same erased structure and the
same remaining occurrence stream. -/
def ResEquiv : Except PyError (XElem × GenSt) → Except PyError (XElem × GenSt) → Prop
  | .ok (p, s), .ok (q, t) => strip p = strip q ∧ s.occ = t.occ
  | .error e, .error f => e = f
  | _, _ => False

/-- Like `ResEquiv` for the occurrence sampler: equal counts and equal
remaining occurrence streams. -/
def OccResEquiv : Except PyError (Int × GenSt) → Except PyError (Int × GenSt) → Prop
  | .ok (n, s), .ok (m, t) => n = m ∧ s.occ = t.occ
  | .error e, .error f => e = f
  | _, _ => False

/-- Two pending engine calls that agree on everything except run-only data
(attribute values / text) of the element under construction. -/
inductive CallEquiv : EngineCall → EngineCall → Prop where
  | genElem {s p q d} : strip p = strip q → CallEquiv (.genElem s p d) (.genElem s q d)
  | genRepeat {s p q d n k} :
      strip p = strip q → CallEquiv (.genRepeat s p d n k) (.genRepeat s q d n k)
  | genOne {s d n} : CallEquiv (.genOne s d n) (.genOne s d n)
  | genList {s p q l} : strip p = strip q → CallEquiv (.genList s p l) (.genList s q l)
  | pcm {s p q cm} : strip p = strip q → CallEquiv (.pcm s p cm) (.pcm s q cm)
  | ccExt {s p q e} : strip p = strip q → CallEquiv (.ccExt s p e) (.ccExt s q e)
  | ccBase {s p q e} : strip p = strip q → CallEquiv (.ccBase s p e) (.ccBase s q e)
  | ccOwn {s p q e} : strip p = strip q → CallEquiv (.ccOwn s p e) (.ccOwn s q e)

theorem sampleOccurrences_occ (mn : Int) (mx : MaxOcc) {s t : GenSt} (h : s.occ = t.occ) :
    OccResEquiv (sampleOccurrences mn mx s) (sampleOccurrences mn mx t) := by
  have hh : s.headOcc = t.headOcc := by simp [GenSt.headOcc, h]
  have ha : s.advanceOcc.occ = t.advanceOcc.occ := by simp [GenSt.advanceOcc, h]
  cases mx with
  | unbounded =>
    simp only [sampleOccurrences, hh]
    cases pyRandint mn (min (mn + 1) 2) t.headOcc with
    | error e => exact rfl
    | ok n => exact ⟨rfl, ha⟩
  | fin m =>
    simp only [sampleOccurrences]
    by_cases h1 : 1 < m
    · simp only [h1, if_true, hh]
      cases pyRandint mn m t.headOcc with
      | error e => exact rfl
      | ok n => exact ⟨rfl, ha⟩
    · by_cases h0 : mn == 0
      · simp only [h1, if_false, h0, if_true, hh]
        exact ⟨rfl, ha⟩
      · simp only [h1, if_false, h0]
        exact ⟨rfl, h⟩

theorem processOneAttr_occ {p q a s t} (hpq : strip p = strip q) (hst : s.occ = t.occ) :
    ResEquiv (processOneAttr p a s) (processOneAttr q a t) := by
  unfold processOneAttr
  split
  · match hx : getXsdTypeName a with
    | .error e => exact rfl
    | .ok none => exact rfl
    | .ok (some ty) =>
      exact ⟨strip_setAttr hpq _ _ _, by simp [GenSt.advanceVal, hst]⟩
  · match hr : a.getAttr "ref" with
    | some rf =>
      by_cases he : strIsEmpty rf
      · simp only [he, if_true]
        exact ⟨hpq, by simp [GenSt.pushWarn, hst]⟩
      · simp only [he, if_false]
        exact ⟨strip_setAttr hpq _ _ _, hst⟩
    | none => exact ⟨hpq, by simp [GenSt.pushWarn, hst]⟩

theorem processAttrList_occ : ∀ (l : List XElem) {p q s t},
    strip p = strip q → s.occ = t.occ →
    ResEquiv (processAttrList p l s) (processAttrList q l t) := by
  intro l
  induction l with
  | nil => intro p q s t hpq hst; exact ⟨hpq, hst⟩
  | cons a rest ih =>
    intro p q s t hpq hst
    have h1 := processOneAttr_occ (a := a) hpq hst

    simp only [processAttrList]
    rcases hx : processOneAttr p a s with e₁ | ⟨p₁, s₁⟩ <;>
      rcases hy : processOneAttr q a t with e₂ | ⟨q₁, t₁⟩ <;>
        rw [hx, hy] at h1
    · exact h1
    · exact h1.elim
    · exact h1.elim
    · exact ih h1.1 h1.2

theorem processAttributes_occ {p q d s t} (hpq : strip p = strip q) (hst : s.occ = t.occ) :
    ResEquiv (processAttributes p d s) (processAttributes q d t) := by
  have h1 := processAttrList_occ (d.findAll "attribute") hpq hst
  unfold processAttributes
  rcases hx : processAttrList p (d.findAll "attribute") s with e₁ | ⟨p₁, s₁⟩ <;>
    rcases hy : processAttrList q (d.findAll "attribute") t with e₂ | ⟨q₁, t₁⟩ <;>
      rw [hx, hy] at h1
  · exact h1
  · exact h1.elim
  · exact h1.elim
  · exact ⟨h1.1, by rw [warnAttrGroups_occ, warnAttrGroups_occ]; exact h1.2⟩

theorem simpleRestrictionText_occ (r : XElem) (f : String) (s : GenSt) :
    (simpleRestrictionText r f s).2.occ = s.occ := by
  unfold simpleRestrictionText
  dsimp only
  split
  · rfl
  · split
    · rfl
    · rfl

theorem simpleContentExtText_occ (ex : XElem) (s : GenSt) :
    (simpleContentExtText ex s).2.occ = s.occ := by
  unfold simpleContentExtText
  dsimp only
  split
  · rfl
  · rfl

theorem simpleContentRestrText_occ (r : XElem) (s : GenSt) :
    (simpleContentRestrText r s).2.occ = s.occ := by
  unfold simpleContentRestrText
  dsimp only
  split
  · split
    · rfl
    · split
      · rfl
      · rfl
  · split
    · rfl
    · rfl

theorem engine_occ : ∀ fuel c₁ c₂ s t, CallEquiv c₁ c₂ → s.occ = t.occ →
    ResEquiv (engine fuel c₁ s) (engine fuel c₂ t) := by
  intro fuel
  induction fuel with
  | zero => intro c₁ c₂ s t hce hst; exact rfl
  | succ fuel ih =>
    intro c₁ c₂ s t hce hst
    cases hce with
    | @genElem schema p q d hpq =>
      simp only [engine]
      by_cases hn : (!strTruthy (d.getAttr "name")) = true
      · simp only [hn, if_true]
        exact ⟨hpq, by simp [GenSt.pushWarn, hst]⟩
      · simp only [hn, if_false]
        rcases hocc : getOccurrence d with e | ⟨mn, mx⟩
        · exact rfl
        · by_cases hz : (mn == 0 && mx == MaxOcc.fin 0) = true
          · simp only [hz, if_true]
            exact ⟨hpq, hst⟩
          · simp only [hz, if_false]
            have hs := sampleOccurrences_occ mn mx hst
            rcases hs1 : sampleOccurrences mn mx s with e₁ | ⟨n₁, s₁⟩ <;>
              rcases hs2 : sampleOccurrences mn mx t with e₂ | ⟨n₂, t₁⟩ <;>
                rw [hs1, hs2] at hs
            · exact hs
            · exact hs.elim
            · exact hs.elim
            · obtain ⟨hn12, hocc12⟩ := hs
              subst hn12
              by_cases hneg : n₁ ≤ 0
              · simp only [hneg, if_true]
                exact ⟨hpq, hocc12⟩
              · simp only [hneg, if_false]
                exact ih _ _ _ _ (.genRepeat hpq) hocc12
    | @genRepeat schema p q d name count hpq =>
      simp only [engine]
      cases count with
      | zero => exact ⟨hpq, hst⟩
      | succ k =>
        dsimp only
        have h1 := ih _ _ _ _ (.genOne (s := schema) (d := d) (n := name)) hst
        rcases hx : engine fuel (.genOne schema d name) s with e₁ | ⟨c₁', s₁⟩ <;>
          rcases hy : engine fuel (.genOne schema d name) t with e₂ | ⟨c₂', t₁⟩ <;>
            rw [hx, hy] at h1
        · exact h1
        · exact h1.elim
        · exact h1.elim
        · exact ih _ _ _ _ (.genRepeat (strip_appendChild hpq h1.1)) h1.2
    | @genOne schema d name =>
      simp only [engine]
      rcases htn : getXsdTypeName d with e | tn
      · exact rfl
      · dsimp only
        rcases htd : getTypeDefinition schema tn with _ | td
        · -- inline / built-in branch
          dsimp only
          have h1 := processAttributes_occ (p := XElem.node name [] [] none)
            (q := XElem.node name [] [] none) (d := d) rfl hst
          rcases hx : processAttributes (XElem.node name [] [] none) d s with e₁ | ⟨c₁', s₁⟩ <;>
            rcases hy : processAttributes (XElem.node name [] [] none) d t with e₂ | ⟨c₂', t₁⟩ <;>
              rw [hx, hy] at h1
          · exact h1
          · exact h1.elim
          · exact h1.elim
          · dsimp only
            rcases hict : d.findChild "complexType" with _ | ict
            · dsimp only
              rcases hist : d.findChild "simpleType" with _ | ist
              · dsimp only
                cases tn with
                | none => exact rfl
                | some ty =>
                  refine ⟨?_, ?_⟩
                  · rw [strip_setText, strip_setText]; exact h1.1
                  · simpa [GenSt.advanceVal] using h1.2
              · dsimp only
                rcases hr : ist.findChild "restriction" with _ | r
                · exact ⟨by rw [strip_setText, strip_setText]; exact h1.1, h1.2⟩
                · refine ⟨by rw [strip_setText, strip_setText]; exact h1.1, ?_⟩
                  rw [simpleRestrictionText_occ, simpleRestrictionText_occ]
                  exact h1.2
            · dsimp only
              rcases hcm : contentModelSearch ict with _ | cm
              · exact ⟨h1.1, h1.2⟩
              · exact ih _ _ _ _ (.pcm h1.1) h1.2
        · -- registry-type branch
          dsimp only
          have h1 := processAttributes_occ (p := XElem.node name [] [] none)
            (q := XElem.node name [] [] none) (d := td) rfl hst
          rcases hx : processAttributes (XElem.node name [] [] none) td s with e₁ | ⟨c₁', s₁⟩ <;>
            rcases hy : processAttributes (XElem.node name [] [] none) td t with e₂ | ⟨c₂', t₁⟩ <;>
              rw [hx, hy] at h1
          · exact h1
          · exact h1.elim
          · exact h1.elim
          · dsimp only
            rcases hcm : contentModelSearch td with _ | cm
            · dsimp only
              by_cases hsimple : (td.tag == "simpleType") = true
              · simp only [hsimple, if_true]
                rcases hr : td.findChild "restriction" with _ | r
                · exact ⟨by rw [strip_setText, strip_setText]; exact h1.1, h1.2⟩
                · refine ⟨by rw [strip_setText, strip_setText]; exact h1.1, ?_⟩
                  rw [simpleRestrictionText_occ, simpleRestrictionText_occ]
                  exact h1.2
              · simp only [hsimple, if_false]
                exact ⟨h1.1, h1.2⟩
            · exact ih _ _ _ _ (.pcm h1.1) h1.2
    | @genList schema p q ds hpq =>
      simp only [engine]
      cases ds with
      | nil => exact ⟨hpq, hst⟩
      | cons d rest =>
        dsimp only
        have h1 := ih _ _ _ _ (.genElem (s := schema) (d := d) hpq) hst
        rcases hx : engine fuel (.genElem schema p d) s with e₁ | ⟨p₁, s₁⟩ <;>
          rcases hy : engine fuel (.genElem schema q d) t with e₂ | ⟨q₁, t₁⟩ <;>
            rw [hx, hy] at h1
        · exact h1
        · exact h1.elim
        · exact h1.elim
        · exact ih _ _ _ _ (.genList h1.1) h1.2
    | @pcm schema p q cm hpq =>
      simp only [engine]
      by_cases hsa : (cm.tag == "sequence" || cm.tag == "all") = true
      · simp only [hsa, if_true]
        have h1 := ih _ _ _ _ (.genList (s := schema) (l := cm.findAll "element") hpq) hst
        rcases hx : engine fuel (.genList schema p (cm.findAll "element")) s with e₁ | ⟨p₁, s₁⟩ <;>
          rcases hy : engine fuel (.genList schema q (cm.findAll "element")) t with e₂ | ⟨q₁, t₁⟩ <;>
            rw [hx, hy] at h1
        · exact h1
        · exact h1.elim
        · exact h1.elim
        · exact ⟨h1.1, by rw [warnGroups_occ, warnGroups_occ]; exact h1.2⟩
      · simp only [hsa, if_false]
        by_cases hch : (cm.tag == "choice") = true
        · simp only [hch, if_true]
          rcases hfc : cm.findChild "element" with _ | first
          · exact ⟨hpq, by simp [GenSt.pushWarn, hst]⟩
          · exact ih _ _ _ _ (.genElem hpq) hst
        · simp only [hch, if_false]
          by_cases hcc : (cm.tag == "complexContent") = true
          · simp only [hcc, if_true]
            rcases hext : cm.findChild "extension" with _ | ext
            · dsimp only
              rcases hres : cm.findChild "restriction" with _ | r
              · exact ⟨hpq, by simp [GenSt.pushWarn, hst]⟩
              · dsimp only
                have hst₁ : (s.pushWarn "complexContent with restriction is not fully generated").occ =
                    (t.pushWarn "complexContent with restriction is not fully generated").occ := by
                  simp [GenSt.pushWarn, hst]
                have h1 := processAttributes_occ (d := r) hpq hst₁
                rcases hx : processAttributes p r
                    (s.pushWarn "complexContent with restriction is not fully generated") with e₁ | ⟨p₁, s₁⟩ <;>
                  rcases hy : processAttributes q r
                      (t.pushWarn "complexContent with restriction is not fully generated") with e₂ | ⟨q₁, t₁⟩ <;>
                    rw [hx, hy] at h1
                · exact h1
                · exact h1.elim
                · exact h1.elim
                · dsimp only
                  rcases hsq : r.findChild "sequence" with _ | sq
                  · exact ⟨h1.1, h1.2⟩
                  · exact ih _ _ _ _ (.pcm h1.1) h1.2
            · exact ih _ _ _ _ (.ccExt hpq) hst
          · simp only [hcc, if_false]
            by_cases hsc : (cm.tag == "simpleContent") = true
            · simp only [hsc, if_true]
              rcases hext : cm.findChild "extension" with _ | ex
              · dsimp only
                rcases hres : cm.findChild "restriction" with _ | r
                · exact ⟨hpq, by simp [GenSt.pushWarn, hst]⟩
                · dsimp only
                  refine processAttributes_occ ?_ ?_
                  · rw [strip_setText, strip_setText]; exact hpq
                  · rw [simpleContentRestrText_occ, simpleContentRestrText_occ]; exact hst
              · dsimp only
                refine processAttributes_occ ?_ ?_
                · rw [strip_setText, strip_setText]; exact hpq
                · rw [simpleContentExtText_occ, simpleContentExtText_occ]; exact hst
            · simp only [hsc, if_false]
              exact ⟨hpq, by simp [GenSt.pushWarn, hst]⟩
    | @ccExt schema p q ext hpq =>
      simp only [engine]
      have h1 := ih _ _ _ _ (.ccBase (s := schema) (e := ext) hpq) hst
      rcases hx : engine fuel (.ccBase schema p ext) s with e₁ | ⟨p₁, s₁⟩ <;>
        rcases hy : engine fuel (.ccBase schema q ext) t with e₂ | ⟨q₁, t₁⟩ <;>
          rw [hx, hy] at h1
      · exact h1
      · exact h1.elim
      · exact h1.elim
      · exact ih _ _ _ _ (.ccOwn h1.1) h1.2
    | @ccBase schema p q ext hpq =>
      simp only [engine]
      rcases hbd : getTypeDefinition schema (ext.getAttr "base") with _ | bd
      · exact ⟨hpq, hst⟩
      · dsimp only
        by_cases htr : pyTruthyElem bd = true
        · simp only [htr, if_true]
          have h1 := processAttributes_occ (d := bd) hpq hst
          rcases hx : processAttributes p bd s with e₁ | ⟨p₁, s₁⟩ <;>
            rcases hy : processAttributes q bd t with e₂ | ⟨q₁, t₁⟩ <;>
              rw [hx, hy] at h1
          · exact h1
          · exact h1.elim
          · exact h1.elim
          · dsimp only
            rcases hbcm : baseContentSearch bd with _ | bcm
            · exact ⟨h1.1, h1.2⟩
            · exact ih _ _ _ _ (.pcm h1.1) h1.2
        · simp only [htr, if_false]
          exact ⟨hpq, hst⟩
    | @ccOwn schema p q ext hpq =>
      simp only [engine]
      have h1 := processAttributes_occ (d := ext) hpq hst
      rcases hx : processAttributes p ext s with e₁ | ⟨p₁, s₁⟩ <;>
        rcases hy : processAttributes q ext t with e₂ | ⟨q₁, t₁⟩ <;>
          rw [hx, hy] at h1
      · exact h1
      · exact h1.elim
      · exact h1.elim
      · dsimp only
        rcases hsq : ext.findChild "sequence" with _ | sq
        · exact ⟨h1.1, h1.2⟩
        · exact ih _ _ _ _ (.pcm h1.1) h1.2

/-! ## Non-emptiness of synthesized values (C10 groundwork) -/

theorem append_ne_empty_left {s t : String} (h : s ≠ "") : s ++ t ≠ "" := by
  intro he
  apply h
  have hd := congrArg String.data he
  rw [String.data_append] at hd
  have : s.data = [] := List.append_eq_nil.mp hd |>.1
  cases s with
  | mk l => cases this; rfl

theorem toDigitsCore_ne_nil (b : Nat) :
    ∀ (f n : Nat) (l : List Char), l ≠ [] → Nat.toDigitsCore b f n l ≠ [] := by
  intro f
  induction f with
  | zero => intro n l hl; simpa [Nat.toDigitsCore] using hl
  | succ f ih =>
    intro n l hl
    simp only [Nat.toDigitsCore]
    split
    · simp
    · exact ih (n / b) _ (by simp)

theorem toDigits_ne_nil (b n : Nat) : Nat.toDigits b n ≠ [] := by
  simp only [Nat.toDigits, Nat.toDigitsCore]
  split
  · simp
  · exact toDigitsCore_ne_nil b n (n / b) _ (by simp)

theorem natToString_ne_empty (n : Nat) : toString n ≠ "" := by
  show Nat.repr n ≠ ""
  intro h
  have hd := congrArg String.data h
  have : Nat.toDigits 10 n = [] := hd
  exact toDigits_ne_nil 10 n this

theorem intToString_ne_empty (i : Int) : toString i ≠ "" := by
  show Int.repr i ≠ ""
  cases i with
  | ofNat m => exact natToString_ne_empty m
  | negSucc m => exact append_ne_empty_left (by decide)

theorem pad2_ne_empty (n : Nat) : pad2 n ≠ "" := by
  unfold pad2
  split
  · exact append_ne_empty_left (by decide)
  · exact natToString_ne_empty n

theorem pad4_ne_empty (n : Nat) : pad4 n ≠ "" := by
  unfold pad4
  split
  · exact append_ne_empty_left (by decide)
  · split
    · exact append_ne_empty_left (by decide)
    · split
      · exact append_ne_empty_left (by decide)
      · exact natToString_ne_empty n

theorem dictGet_mem : ∀ (l : List (String × String)) (k v : String),
    dictGet l k = some v → ∃ kk, (kk, v) ∈ l := by
  intro l
  induction l with
  | nil => intro k v h; exact absurd h (by simp [dictGet])
  | cons a rest ih =>
    intro k v h
    simp only [dictGet] at h
    split at h
    · obtain ⟨a1, a2⟩ := a
      simp only [Option.some.injEq] at h
      exact ⟨a1, by simp [h.symm]⟩
    · obtain ⟨kk, hm⟩ := ih k v h
      exact ⟨kk, List.mem_cons_of_mem _ hm⟩

theorem typeMap_value_ne_empty {ds : List Nat} {k v : String}
    (h : dictGet (typeMap ds) k = some v) : v ≠ "" := by
  obtain ⟨kk, hmem⟩ := dictGet_mem _ _ _ h
  have hv : ∀ q ∈ typeMap ds, q.2 ≠ "" := by
    intro q hq
    simp only [typeMap] at hq
    fin_cases hq <;>
      · dsimp only
        repeat' apply append_ne_empty_left
        first
          | decide
          | exact natToString_ne_empty _
          | exact intToString_ne_empty _
          | exact pad2_ne_empty _
          | exact pad4_ne_empty _
          | (split <;> decide)
  exact hv (kk, v) hmem

/-! ## Claim-specific fixtures -/

/-- An attribute declaration carrying an inline simpleType restriction with
base `xs:string` and the given enumeration facets (the C2 scenario). -/
def c2AttrDecl (enums : List XElem) : XElem :=
  .node "attribute" [("name", "Ccy")]
    [.node "simpleType" []
      [.node "restriction" [("base", "xs:string")] enums none] none] none

/-- The C2 scenario definition: a complex type whose only attribute is the
`Ccy` attribute with `CRDT`/`DBIT` as its only restriction facets. -/
def c2Defn : XElem :=
  .node "complexType" []
    [c2AttrDecl [.node "enumeration" [("value", "CRDT")] [] none,
                 .node "enumeration" [("value", "DBIT")] [] none]] none

/-- An element declaration with an inline simpleType whose restriction has
no `base` attribute (only an enumeration facet). -/
def inlineSimpleNoBase : XElem :=
  .node "element" [("name", "E")]
    [.node "simpleType" []
      [.node "restriction" [] [.node "enumeration" [("value", "A")] [] none] none] none] none

/-- An element declaration with an inline complexType whose simpleContent
extension has no `base` attribute. -/
def inlineComplexSCNoBase : XElem :=
  .node "element" [("name", "F")]
    [.node "complexType" []
      [.node "simpleContent" []
        [.node "extension" [] [.node "attribute" [("name", "a")] [] none] none] none] none] none

/-- Like `inlineSimpleNoBase` but with an explicit empty `base` string: this
reaches the source's intended `"string"` fallback. -/
def inlineSimpleEmptyBase : XElem :=
  .node "element" [("name", "E")]
    [.node "simpleType" [] [.node "restriction" [("base", "")] [] none] none] none

/-- A schema with one global element `R` whose inline complex type is a
sequence of `A` with `minOccurs=1, maxOccurs=2`; it declares no optional
(`minOccurs=0`) node anywhere. -/
def c4Schema : XElem :=
  .node "schema" []
    [.node "element" [("name", "R")]
      [.node "complexType" []
        [.node "sequence" []
          [.node "element" [("name", "A"), ("minOccurs", "1"), ("maxOccurs", "2")] [] none]
          none] none] none] none

/-- Erased structure of one C4 run with the given occurrence stream. -/
def c4RunStructure (occ : List Nat) : Option XElem :=
  match generateXml 20 c4Schema none ⟨occ, [], []⟩ with
  | .ok (d, _) => some (strip d)
  | .error _ => none

/-- Node count of an optional tree (observation used to separate the two C4
run structures). -/
def optCountNodes : Option XElem → Nat
  | some e => countNodes e
  | none => 0

/-- A type definition whose first content-model candidate (`sequence`) is
present but childless, followed by a non-empty `choice`. -/
def c5TypeDef : XElem :=
  .node "complexType" []
    [.node "sequence" [] [] none,
     .node "choice" [] [.node "element" [("name", "A")] [] none] none] none

/-- `contentModelSearch` as the amended specification words it: the first of
sequence/all/choice/complexContent that is present **and has at least one
child** wins; otherwise the simpleContent lookup (childless or not) is the
result. -/
def firstWithChildren : List (Option XElem) → Option XElem
  | [] => none
  | none :: rest => firstWithChildren rest
  | some e :: rest => if e.children.isEmpty then firstWithChildren rest else some e

def contentModelSearchSpec (td : XElem) : Option XElem :=
  match firstWithChildren
      [td.findChild "sequence", td.findChild "all",
       td.findChild "choice", td.findChild "complexContent"] with
  | some e => some e
  | none => td.findChild "simpleContent"

/-- A schema declaring the global complex type `Base` with one sequence
child element `B` (C6 fixture). -/
def c6Schema : XElem :=
  .node "schema" []
    [.node "complexType" [("name", "Base")]
      [.node "sequence" [] [.node "element" [("name", "B")] [] none] none] none] none

/-- A complexContent extension of `Base` whose own content model is a
`choice` declaring the element `E`. -/
def c6ExtChoice : XElem :=
  .node "extension" [("base", "Base")]
    [.node "choice" [] [.node "element" [("name", "E")] [] none] none] none

def c6CmChoice : XElem := .node "complexContent" [] [c6ExtChoice] none

/-- A complexContent extension of `Base` whose own content model is a
`sequence` declaring the element `E`. -/
def c6ExtSeq : XElem :=
  .node "extension" [("base", "Base")]
    [.node "sequence" [] [.node "element" [("name", "E")] [] none] none] none

/-- The registry definition of `Base` in `c6Schema`. -/
def c6BaseTd : XElem :=
  .node "complexType" [("name", "Base")]
    [.node "sequence" [] [.node "element" [("name", "B")] [] none] none] none

/-- The C8 scenario: a choice between elements `A` and `B`. -/
def c8Choice : XElem :=
  .node "choice" []
    [.node "element" [("name", "A")] [] none,
     .node "element" [("name", "B")] [] none] none

def emptySchema : XElem := .node "schema" [] [] none

def elemA : XElem := .node "element" [("name", "A")] [] none

theorem foldr_pyOr_eq_firstWithChildren :
    ∀ (l : List (Option XElem)) (e : Option XElem),
      l.foldr pyOr e = match firstWithChildren l with
        | some x => some x
        | none => e := by
  intro l
  induction l with
  | nil => intro e; rfl
  | cons a rest ih =>
    intro e
    cases a with
    | none =>
      simp only [List.foldr_cons, firstWithChildren, pyOr, pyTruthy]
      exact ih e
    | some x =>
      simp only [List.foldr_cons, firstWithChildren, pyOr, pyTruthy, pyTruthyElem]
      by_cases hx : x.children.isEmpty
      · simp only [hx, Bool.not_true, if_false, if_true]
        exact ih e
      · simp only [hx, Bool.not_false, if_true, if_false]
        rfl

/-! ## The claims -/

/-- C1 (counterexample): the claim says the unbounded occurrence sampler
succeeds for every non-negative `minOccurs` with a count in
`[minimum, max(minimum, minimum+1, 2)]`; but at `minOccurs = 3` the source
computes `randint(3, min(3+1, 2)) = randint(3, 2)`, an empty range, and
raises `ValueError`. -/
theorem C1_unbounded_sampling_counterexample :
    (0 : Int) ≤ 3 ∧
    sampleOccurrences 3 .unbounded ⟨[0], [], []⟩ =
      .error (.valueError "empty range for randrange") := by
  exact ⟨by norm_num, rfl⟩

/-- C1 (amended): for `maxOccurs = unbounded` the sampler draws from
`randint(minimum, min(minimum+1, 2))` (not `max(...)`), forcing a zero draw
up to 1; hence it succeeds only for `minOccurs ≤ 2`, and then the count lies
between `max(minimum, 1)` and 2. -/
theorem C1_unbounded_sampling_amended (mn : Int) (st : GenSt)
    (h0 : 0 ≤ mn) (h2 : mn ≤ 2) :
    ∃ n, sampleOccurrences mn .unbounded st = .ok (n, st.advanceOcc) ∧
      mn ≤ n ∧ 1 ≤ n ∧ n ≤ 2 := by
  have hd2 : st.headOcc % 2 < 2 := Nat.mod_lt _ (by norm_num)
  interval_cases mn
  · rcases Nat.mod_two_eq_zero_or_one st.headOcc with h | h
    · exact ⟨1, by simp [sampleOccurrences, pyRandint, h], by norm_num, by norm_num, by norm_num⟩
    · refine ⟨1, ?_, by norm_num, by norm_num, by norm_num⟩
      simp only [sampleOccurrences, pyRandint]
      norm_num [h]
  · refine ⟨1 + Int.ofNat (st.headOcc % 2), ?_, ?_, ?_, ?_⟩
    · simp only [sampleOccurrences, pyRandint]
      norm_num
    · simp only [Int.ofNat_eq_natCast]
      omega
    · simp only [Int.ofNat_eq_natCast]
      omega
    · simp only [Int.ofNat_eq_natCast]
      omega
  · refine ⟨2, ?_, by norm_num, by norm_num, by norm_num⟩
    simp only [sampleOccurrences, pyRandint]
    norm_num

/-- C1 (witness): at `minOccurs = 1` the amended bound holds concretely. -/
theorem C1_unbounded_sampling_witness :
    ∃ n, sampleOccurrences 1 .unbounded ⟨[1], [], []⟩ =
        .ok (n, GenSt.advanceOcc ⟨[1], [], []⟩) ∧
      (1 : Int) ≤ n ∧ 1 ≤ n ∧ n ≤ 2 :=
  C1_unbounded_sampling_amended 1 ⟨[1], [], []⟩ (by norm_num) (by norm_num)

/-- C2 (counterexample): for the attribute declared with enumeration facets
`CRDT`/`DBIT` only (restriction base `xs:string`), the generated attribute
value is `"sample_string"`, which is neither `"CRDT"` nor `"DBIT"` — the
enumeration facets of attribute types are ignored by `_process_attributes`. -/
theorem C2_enum_attribute_counterexample :
    processAttributes (XElem.node "P" [] [] none) c2Defn ⟨[], [], []⟩ =
      .ok (XElem.node "P" [("Ccy", "sample_string")] [] none, ⟨[], [], []⟩) ∧
    "sample_string" ≠ "CRDT" ∧ "sample_string" ≠ "DBIT" := by
  exact ⟨rfl, by decide, by decide⟩

/-- C2 (amended): an attribute whose inline simpleType restriction has base
`xs:string` always receives the base type's synthesized value
`"sample_string"`, whatever enumeration facets the restriction declares —
the facets are never consulted on the attribute path. -/
theorem C2_enum_attribute_amended (enums : List XElem) (parent : XElem) (st : GenSt) :
    processOneAttr parent (c2AttrDecl enums) st =
      .ok (parent.setAttr "Ccy" "sample_string", st.advanceVal) := rfl

/-- C3 (code bug): type resolution raises `TypeError` (evaluating
`":" in None`) for a declaration whose inline simpleType restriction has no
`base` attribute, and likewise for an inline complexType whose simpleContent
extension has no `base`; yet the very next line of the source
(`return base_type if base_type else "string"`) — reachable for an **empty**
`base` string — shows the intended always-succeed fallback. -/
theorem C3_type_resolution_code_bug :
    getXsdTypeName inlineSimpleNoBase =
      .error (.typeError "argument of type NoneType is not iterable") ∧
    getXsdTypeName inlineComplexSCNoBase =
      .error (.typeError "argument of type NoneType is not iterable") ∧
    getXsdTypeName inlineSimpleEmptyBase = .ok (some "string") := by
  exact ⟨rfl, rfl, rfl⟩

/-- C4 (counterexample): a schema with no optional (`minOccurs = 0`)
declaration whose two runs (occurrence draws `0` vs `1`) nevertheless differ
in tag structure: the required element `A` (`minOccurs=1, maxOccurs=2`)
repeats once in one run and twice in the other. -/
theorem C4_structure_idempotence_counterexample :
    mentionsMinZero c4Schema = false ∧
    (c4RunStructure [0]).isSome = true ∧
    (c4RunStructure [1]).isSome = true ∧
    c4RunStructure [0] ≠ c4RunStructure [1] := by
  refine ⟨rfl, rfl, rfl, fun h => ?_⟩
  have h2 : (3 : Nat) = 4 := congrArg optCountNodes h
  exact absurd h2 (by decide)

/-- C4 (amended): the tag structure and attribute names of a generated
document are a function of the schema and the occurrence-decision
randomness alone: two runs over the same schema that make the same
occurrence draws agree on erased structure (and errors), however their
value-synthesis randomness differs; runs with different occurrence draws may
differ not only in optional-element presence but also in the repetition
counts of elements whose `maxOccurs` exceeds 1 or is unbounded. -/
theorem C4_structure_idempotence_amended (fuel : Nat) (schema : XElem)
    (rootName? : Option String) (occ : List Nat) (v₁ v₂ : List (List Nat))
    (w₁ w₂ : List String) :
    ResEquiv (generateXml fuel schema rootName? ⟨occ, v₁, w₁⟩)
      (generateXml fuel schema rootName? ⟨occ, v₂, w₂⟩) := by
  unfold generateXml generateXmlElement
  cases rootName? with
  | some rootName =>
    dsimp only
    cases hfind : (schema.findAll "element").find?
        (fun e => e.getAttr "name" == some rootName) with
    | none => exact rfl
    | some rootDecl =>
      dsimp only
      cases hname : rootDecl.getAttr "name" with
      | none => exact rfl
      | some nm => exact engine_occ fuel _ _ _ _ (.genElem rfl) rfl
  | none =>
    dsimp only
    cases hfc : schema.findChild "element" with
    | none => exact rfl
    | some rootDecl =>
      dsimp only
      cases hname : rootDecl.getAttr "name" with
      | none => exact rfl
      | some nm => exact engine_occ fuel _ _ _ _ (.genElem rfl) rfl

/-- C5 (counterexample): the claim says the first content-model node present
wins regardless of whether it has children; but with a childless `sequence`
followed by a non-empty `choice`, the Python `or`-chain treats the found
(empty, hence falsy) sequence element as absent and walks the `choice`. -/
theorem C5_content_model_order_counterexample :
    c5TypeDef.findChild "sequence" = some (XElem.node "sequence" [] [] none) ∧
    contentModelSearch c5TypeDef =
      some (XElem.node "choice" [] [XElem.node "element" [("name", "A")] [] none] none) ∧
    contentModelSearch c5TypeDef ≠ c5TypeDef.findChild "sequence" := by
  refine ⟨rfl, rfl, fun h => ?_⟩
  have h2 : some "choice" = some "sequence" := congrArg (Option.map XElem.tag) h
  exact absurd h2 (by decide)

/-- C5 (amended): the walked content-model node is the first of sequence,
all, choice, complexContent that is present **and has at least one child**;
when none qualifies, the result is the `simpleContent` lookup (which is used
even when childless, being the last operand of the `or`-chain). -/
theorem C5_content_model_order_amended (td : XElem) :
    contentModelSearch td = contentModelSearchSpec td := by
  have h := foldr_pyOr_eq_firstWithChildren
    [td.findChild "sequence", td.findChild "all", td.findChild "choice",
     td.findChild "complexContent"] (td.findChild "simpleContent")
  simpa [contentModelSearch, contentModelSearchSpec, List.foldr] using h

/-- C6 (counterexample): the claim says the content model declared directly
inside a resolving complexContent extension is applied after the base's; but
the source only applies a `sequence` declared in the extension — an
extension whose own content model is a `choice` (here declaring `E`)
contributes nothing: the output holds only the base's `B` child. -/
theorem C6_extension_additive_counterexample :
    c6ExtChoice.findChild "choice" =
      some (XElem.node "choice" [] [XElem.node "element" [("name", "E")] [] none] none) ∧
    processContentModel 10 c6Schema (XElem.node "P" [] [] none) c6CmChoice ⟨[], [], []⟩ =
      .ok (XElem.node "P" []
        [XElem.node "B" [] [] (some "sample_string")] none, ⟨[], [], []⟩) := by
  exact ⟨rfl, rfl⟩

/-- C6 (amended): for a complexContent extension whose base resolves (to a
registry entry with children), a successful run factors into applying the
base type's attributes and content model first, then the extension's own
attributes and — when the extension declares a `sequence` — that sequence;
both phases only append children, so extension children come after the
base's (extension content models other than `sequence` are ignored). -/
theorem C6_extension_additive_amended (fuel : Nat) (schema parent ext : XElem)
    (st : GenSt) (bd p' : XElem) (st' : GenSt)
    (hbd : getTypeDefinition schema (ext.getAttr "base") = some bd)
    (htr : pyTruthyElem bd = true)
    (hrun : processCCExtension (fuel + 1) schema parent ext st = .ok (p', st')) :
    ∃ mid stm bk ek,
      applyCCExtensionBase fuel schema parent ext st = .ok (mid, stm) ∧
      applyCCExtensionOwn fuel schema mid ext stm = .ok (p', st') ∧
      mid.children = parent.children ++ bk ∧
      p'.children = mid.children ++ ek := by
  unfold processCCExtension at hrun
  simp only [engine] at hrun
  rcases hb : engine fuel (.ccBase schema parent ext) st with e | ⟨mid, stm⟩ <;>
    rw [hb] at hrun
  · exact absurd hrun (by simp)
  · dsimp only at hrun
    obtain ⟨bk, hbk, -⟩ := engine_shape fuel (.ccBase schema parent ext) st mid stm hb
    obtain ⟨ek, hek, -⟩ := engine_shape fuel (.ccOwn schema mid ext) stm p' st' hrun
    exact ⟨mid, stm, bk, ek, hb, hrun, hbk, hek⟩

/-- C6 (witness): the amended statement at the concrete `Base`-extending
sequence extension: the base's `B` is generated first, the extension's `E`
after it. -/
theorem C6_extension_additive_witness :
    ∃ mid stm bk ek,
      applyCCExtensionBase 9 c6Schema (XElem.node "P" [] [] none) c6ExtSeq ⟨[], [], []⟩ =
        .ok (mid, stm) ∧
      applyCCExtensionOwn 9 c6Schema mid c6ExtSeq stm =
        .ok (XElem.node "P" []
          [XElem.node "B" [] [] (some "sample_string"),
           XElem.node "E" [] [] (some "sample_string")] none, ⟨[], [], []⟩) ∧
      mid.children = (XElem.node "P" [] [] none).children ++ bk ∧
      (XElem.node "P" []
        [XElem.node "B" [] [] (some "sample_string"),
         XElem.node "E" [] [] (some "sample_string")] none).children =
        mid.children ++ ek :=
  C6_extension_additive_amended 9 c6Schema (XElem.node "P" [] [] none) c6ExtSeq
    ⟨[], [], []⟩ c6BaseTd _ _ rfl rfl rfl

/-- C7 (confirmed): requesting a root element name that is absent from the
schema's global element declarations fails with the missing-root
`ValueError` before any generation, producing no document. -/
theorem C7_missing_root (fuel : Nat) (schema : XElem) (rootName : String) (st : GenSt)
    (habs : (schema.findAll "element").find?
      (fun e => e.getAttr "name" == some rootName) = none) :
    generateXml fuel schema (some rootName) st =
      .error (.valueError ("Root element " ++ rootName ++ " not found in XSD")) := by
  unfold generateXml
  dsimp only
  rw [habs]

/-- C7 (witness): a schema with no global elements and the requested root
`Foo`. -/
theorem C7_missing_root_witness :
    generateXml 5 emptySchema (some "Foo") ⟨[], [], []⟩ =
      .error (.valueError ("Root element " ++ "Foo" ++ " not found in XSD")) :=
  C7_missing_root 5 emptySchema "Foo" ⟨[], [], []⟩ rfl

/-- C8 (confirmed): a `choice` content-model node is expanded by generating
exactly the first element declaration found among its children — the run
equals generating that declaration alone, and every child it adds bears that
declaration's name (so no other alternative is ever produced); a choice with
no element children leaves the parent unchanged and only records a
non-fatal warning. -/
theorem C8_choice_first (fuel : Nat) (schema parent ch : XElem) (st : GenSt)
    (htag : ch.tag = "choice") :
    (∀ first, ch.findChild "element" = some first →
      processContentModel (fuel + 1) schema parent ch st =
        generateXmlElement fuel schema parent first st ∧
      ∀ p' st', generateXmlElement fuel schema parent first st = .ok (p', st') →
        ∃ k, p' = parent.withChildren (parent.children ++ k) ∧
          ∀ x ∈ k, some x.tag = first.getAttr "name") ∧
    (ch.findChild "element" = none →
      processContentModel (fuel + 1) schema parent ch st =
        .ok (parent, st.pushWarn "choice contains no elements")) := by
  have hnota : ¬(ch.tag == "sequence" || ch.tag == "all") = true := by simp [htag]
  have hcho : (ch.tag == "choice") = true := by simp [htag]
  constructor
  · intro first hfc
    constructor
    · unfold processContentModel generateXmlElement
      simp only [engine]
      rw [if_neg hnota, if_pos hcho, hfc]
    · intro p' st' hrun
      exact engine_shape fuel (.genElem schema parent first) st p' st' hrun
  · intro hfc
    unfold processContentModel
    simp only [engine]
    rw [if_neg hnota, if_pos hcho, hfc]

/-- C8 (witness): the `A`/`B` scenario — the choice generates exactly one
element and it is named `A`. -/
theorem C8_choice_first_witness :
    (∀ first, c8Choice.findChild "element" = some first →
      processContentModel (5 + 1) emptySchema (XElem.node "P" [] [] none) c8Choice
          ⟨[], [], []⟩ =
        generateXmlElement 5 emptySchema (XElem.node "P" [] [] none) first ⟨[], [], []⟩ ∧
      ∀ p' st', generateXmlElement 5 emptySchema (XElem.node "P" [] [] none) first
          ⟨[], [], []⟩ = .ok (p', st') →
        ∃ k, p' = (XElem.node "P" [] [] none).withChildren
            ((XElem.node "P" [] [] none).children ++ k) ∧
          ∀ x ∈ k, some x.tag = first.getAttr "name") ∧
    (c8Choice.findChild "element" = none →
      processContentModel (5 + 1) emptySchema (XElem.node "P" [] [] none) c8Choice
          ⟨[], [], []⟩ =
        .ok (XElem.node "P" [] [] none,
          GenSt.pushWarn ⟨[], [], []⟩ "choice contains no elements")) :=
  C8_choice_first 5 emptySchema (XElem.node "P" [] [] none) c8Choice ⟨[], [], []⟩ rfl

/-- C9 (confirmed): for a named element declaration whose occurrence bounds
resolve to `minOccurs = 1, maxOccurs = 1` (the defaults when the attributes
are absent), every successful generation run appends exactly one instance —
bearing the declaration's name — under the parent. -/
theorem C9_single_occurrence (fuel : Nat) (schema parent decl : XElem) (st : GenSt)
    (p' : XElem) (st' : GenSt)
    (hname : strTruthy (decl.getAttr "name") = true)
    (hocc : getOccurrence decl = .ok (1, .fin 1))
    (hrun : generateXmlElement (fuel + 1) schema parent decl st = .ok (p', st')) :
    p'.children.length = parent.children.length + 1 ∧
    ∃ c, p'.children = parent.children ++ [c] ∧ some c.tag = decl.getAttr "name" := by
  unfold generateXmlElement at hrun
  simp only [engine] at hrun
  rw [if_neg (by simp [hname])] at hrun
  rw [hocc] at hrun
  dsimp only at hrun
  rw [if_neg (by decide)] at hrun
  rw [show sampleOccurrences 1 (.fin 1) st = .ok (1, st) from rfl] at hrun
  dsimp only at hrun
  rw [if_neg (by decide)] at hrun
  rw [show ((1 : Int)).toNat = 1 from rfl] at hrun
  cases fuel with
  | zero => exact absurd hrun (by simp [engine])
  | succ f =>
    simp only [engine] at hrun
    rcases hone : engine f (.genOne schema decl ((decl.getAttr "name").getD "")) st with
        e | ⟨c, st₁⟩ <;> rw [hone] at hrun
    · exact absurd hrun (by simp)
    · dsimp only at hrun
      cases f with
      | zero => exact absurd hrun (by simp [engine])
      | succ g =>
        simp only [engine] at hrun
        simp only [Except.ok.injEq, Prod.mk.injEq] at hrun
        obtain ⟨h1, -⟩ := hrun
        subst h1
        have htag : c.tag = (decl.getAttr "name").getD "" :=
          engine_shape (g + 1) (.genOne schema decl ((decl.getAttr "name").getD "")) st
            c st₁ hone
        refine ⟨by simp [appendChild_children], c, appendChild_children .., ?_⟩
        rw [htag]
        exact (strTruthy_eq_some _ hname).symm

/-- C9 (witness): the default-occurrence declaration `elemA` generates
exactly one `A` instance under `P`. -/
theorem C9_single_occurrence_witness :
    (XElem.node "P" [] [XElem.node "A" [] [] (some "sample_string")] none).children.length =
      (XElem.node "P" [] [] none).children.length + 1 ∧
    ∃ c, (XElem.node "P" [] [XElem.node "A" [] [] (some "sample_string")] none).children =
        (XElem.node "P" [] [] none).children ++ [c] ∧
      some c.tag = elemA.getAttr "name" :=
  C9_single_occurrence 4 emptySchema (XElem.node "P" [] [] none) elemA ⟨[], [], []⟩
    (XElem.node "P" [] [XElem.node "A" [] [] (some "sample_string")] none) ⟨[], [], []⟩
    rfl rfl rfl

/-- C10 (confirmed): the value synthesizer is total and never returns the
empty string; the table lookup key is the lowercased input (so two names
with the same lowercase form and a known type yield identical values); and
for any name whose lowercase form is not a table key, the result is exactly
`"UNKNOWN_TYPE_"` followed by the original, case-preserved name. -/
theorem C10_value_synthesizer (name : String) (ds : List Nat) :
    generate_sample_value name ds ≠ "" ∧
    (∀ other : String, pyLower name = pyLower other →
      (dictGet (typeMap ds) (pyLower name)).isSome = true →
      generate_sample_value name ds = generate_sample_value other ds) ∧
    (dictGet (typeMap ds) (pyLower name) = none →
      generate_sample_value name ds = "UNKNOWN_TYPE_" ++ name) := by
  refine ⟨?_, ?_, ?_⟩
  · unfold generate_sample_value
    cases hl : dictGet (typeMap ds) (pyLower name) with
    | none => exact append_ne_empty_left (by decide)
    | some v => exact typeMap_value_ne_empty hl
  · intro other heq hsome
    unfold generate_sample_value
    rw [← heq]
    cases hl : dictGet (typeMap ds) (pyLower name) with
    | none => rw [hl] at hsome; exact absurd hsome (by simp)
    | some v => rfl
  · intro h
    unfold generate_sample_value
    rw [h]

/-- C10 (witness): `BOOLEAN` and `Boolean` synthesize the same value, and an
unknown name gets the `UNKNOWN_TYPE_` prefix with its case preserved. -/
theorem C10_value_synthesizer_witness :
    generate_sample_value "BOOLEAN" [7] = generate_sample_value "Boolean" [7] ∧
    generate_sample_value "MyCustomType" [] = "UNKNOWN_TYPE_" ++ "MyCustomType" :=
  ⟨(C10_value_synthesizer "BOOLEAN" [7]).2.1 "Boolean" (by decide) (by decide),
   (C10_value_synthesizer "MyCustomType" []).2.2 (by decide)⟩
